import Mathlib

/-!
Formal model of the equation-parsing and problem-formulation core of the
Dedalus repository (`dedalus/core/problems.py`), as a shallow embedding in
Lean 4, together with theorems settling the specified properties of the
`Namespace` class, the shared validators, and the per-variant matrix-form
reductions.

The `problems.py` module is embedded faithfully; the external collaborators
it consumes (the Operand/expression-tree family, the text parser, and the
metadata container, which live in modules not reproduced here) are modelled
from the specification of their interfaces, and each such definition is
marked with a doc comment starting `Modelled from the spec:`.
-/

namespace Dedalus

/-- Error taxonomy of `dedalus.tools.exceptions` as used by `problems.py`:
`SymbolicParsingError` and `UnsupportedEquationError`, each carrying a
message string. -/
inductive Err where
  | symbolicParsingError (msg : String)
  | unsupportedEquationError (msg : String)
  deriving DecidableEq, Repr

/-- Boolean test for whether an `Except` computation succeeded. -/
def isOkE {α : Type} : Except Err α → Bool
  | .ok _ => true
  | .error _ => false

/-- Modelled from the spec: the Python builtin `str.isidentifier` used by
`Namespace.__setitem__` (stdlib, not part of the repository). ASCII model:
nonempty, first character a letter or underscore, remaining characters
letters, digits or underscores. -/
def pythonIsIdentifier (s : String) : Bool :=
  match s.data with
  | [] => false
  | c :: rest =>
      (c.isAlpha || c = '_') && rest.all (fun d => d.isAlphanum || d = '_')

/-- The `Namespace` class of `problems.py` (an `OrderedDict` subclass with an
`allow_overwrites` flag): an ordered association list of entries plus the
flag. -/
structure Namespace (α : Type) where
  entries : List (String × α)
  allowOverwrites : Bool
  deriving DecidableEq, Repr

/-- Membership test `key in self` on the underlying ordered dict. -/
def Namespace.containsKey {α : Type} (ns : Namespace α) (k : String) : Bool :=
  ns.entries.any (fun kv => kv.1 = k)

/-- Plain `OrderedDict.__setitem__`: replace the value in place when the key
is present (keeping its position), append otherwise. -/
def setBase {α : Type} : List (String × α) → String → α → List (String × α)
  | [], k, v => [(k, v)]
  | (k0, v0) :: rest, k, v =>
      if k0 = k then (k0, v) :: rest else (k0, v0) :: setBase rest k v

/-- `Namespace.__init__`: empty ordered dict with `allow_overwrites = True`. -/
def Namespace.fresh (α : Type) : Namespace α :=
  { entries := [], allowOverwrites := true }

/-- `Namespace.__setitem__`: a present key raises `SymbolicParsingError` when
overwrites are disabled; an absent key raises `SymbolicParsingError` when it
is not a valid identifier; otherwise the plain dict assignment runs. -/
def Namespace.setitem {α : Type} (ns : Namespace α) (k : String) (v : α) :
    Except Err (Namespace α) :=
  if ns.containsKey k then
    if ns.allowOverwrites = false then
      .error (.symbolicParsingError ("Name " ++ k ++ " is used multiple times."))
    else
      .ok { ns with entries := setBase ns.entries k v }
  else
    if pythonIsIdentifier k = false then
      .error (.symbolicParsingError ("Name " ++ k ++ " is not a valid identifier."))
    else
      .ok { ns with entries := setBase ns.entries k v }

/-- `Namespace.copy`: build a fresh namespace, re-insert every entry through
`__setitem__` (this is what `OrderedDict.update` does on a dict subclass),
then copy the `allow_overwrites` flag. -/
def Namespace.copy {α : Type} (ns : Namespace α) : Except Err (Namespace α) := do
  let c ← ns.entries.foldlM (fun acc kv => acc.setitem kv.1 kv.2) (Namespace.fresh α)
  pure { c with allowOverwrites := ns.allowOverwrites }

/-- Invariant of the claims: every key in the namespace is a valid
identifier. -/
def allKeysIdent {α : Type} (ns : Namespace α) : Bool :=
  ns.entries.all (fun kv => pythonIsIdentifier kv.1)

/-- Modelled from the spec: the external Operand/expression-tree family
(`dedalus.core.field` / `future`, not reproduced in the repository slice).
Symbolic expressions are integer constants, named leaves (fields, scalars,
grid arrays), sums, products, and named operator applications such as
`dt(u)` or `dx(u)`. -/
inductive Expr where
  | num (n : Int)
  | leaf (s : String)
  | add (a b : Expr)
  | mul (a b : Expr)
  | app (f : String) (e : Expr)
  deriving DecidableEq, Repr

/-- Modelled from the spec: dependency testing `expr.has(*vars)` over the
names of the given leaves/operators. -/
def Expr.hasAny : Expr → List String → Bool
  | .num _, _ => false
  | .leaf s, vars => vars.contains s
  | .add a b, vars => a.hasAny vars || b.hasAny vars
  | .mul a b, vars => a.hasAny vars || b.hasAny vars
  | .app f e, vars => vars.contains f || e.hasAny vars

/-- Modelled from the spec: polynomial-order computation `expr.order(*vars)`
(0 = independent, 1 = linear, and so on); a sum takes the maximum of its
parts, a product the sum, and an operator application contributes 1 when the
operator itself is one of the tracked names. -/
def Expr.orderIn : Expr → List String → Nat
  | .num _, _ => 0
  | .leaf s, vars => if vars.contains s then 1 else 0
  | .add a b, vars => max (a.orderIn vars) (b.orderIn vars)
  | .mul a b, vars => a.orderIn vars + b.orderIn vars
  | .app f e, vars => (if vars.contains f then 1 else 0) + e.orderIn vars

/-- Modelled from the spec: substitution `expr.replace(target, value)` for a
leaf target (a field or scalar), replacing every occurrence of the leaf by
the given expression. -/
def Expr.replaceLeaf : Expr → String → Expr → Expr
  | .num n, _, _ => .num n
  | .leaf s, x, v => if s = x then v else .leaf s
  | .add a b, x, v => .add (a.replaceLeaf x v) (b.replaceLeaf x v)
  | .mul a b, x, v => .mul (a.replaceLeaf x v) (b.replaceLeaf x v)
  | .app f e, x, v => .app f (e.replaceLeaf x v)

/-- Modelled from the spec: substitution `expr.replace(op, lambda x: x)` for
an operator target, replacing every application of the operator by its own
(recursively rewritten) argument. -/
def Expr.replaceOpId : Expr → String → Expr
  | .num n, _ => .num n
  | .leaf s, _ => .leaf s
  | .add a b, d => .add (a.replaceOpId d) (b.replaceOpId d)
  | .mul a b, d => .mul (a.replaceOpId d) (b.replaceOpId d)
  | .app f e, d => if f = d then e.replaceOpId d else .app f (e.replaceOpId d)

/-- Modelled from the spec: symbolic differentiation `expr.sym_diff(s)` with
respect to a scalar leaf `s`, with the chain rule introducing the formal
derivative operator `D:f` of a named operator `f`. -/
def Expr.symDiff : Expr → String → Expr
  | .num _, _ => .num 0
  | .leaf x, s => if x = s then .num 1 else .num 0
  | .add a b, s => .add (a.symDiff s) (b.symDiff s)
  | .mul a b, s => .add (.mul (a.symDiff s) b) (.mul a (b.symDiff s))
  | .app f e, s => .mul (.app ("D:" ++ f) e) (e.symDiff s)

/-- Modelled from the spec: splitting `expr.split(term)` by a designated
sub-term: a sum splits componentwise; any other expression goes whole to the
first component when it mentions the term and to the second otherwise, with
`0` filling the empty slot. -/
def Expr.splitBy : Expr → String → Expr × Expr
  | .add a b, v =>
      let p := a.splitBy v
      let q := b.splitBy v
      (.add p.1 q.1, .add p.2 q.2)
  | .num n, v => if (Expr.num n).hasAny [v] then (.num n, .num 0) else (.num 0, .num n)
  | .leaf s, v => if (Expr.leaf s).hasAny [v] then (.leaf s, .num 0) else (.num 0, .leaf s)
  | .mul a b, v =>
      if (Expr.mul a b).hasAny [v] then (.mul a b, .num 0) else (.num 0, .mul a b)
  | .app f e, v =>
      if (Expr.app f e).hasAny [v] then (.app f e, .num 0) else (.num 0, .app f e)

/-- Subtraction `a - b`, as built by the operand arithmetic overloads. -/
def Expr.sub (a b : Expr) : Expr :=
  .add a (.mul (.num (-1)) b)

/-- Reference semantics for expressions: an integer interpretation of leaves
and of the named unary operators, used to state that the split of an
expression exactly accounts for it. -/
def Expr.evalI (σ : String → Int) (I : String → Int → Int) : Expr → Int
  | .num n => n
  | .leaf s => σ s
  | .add a b => a.evalI σ I + b.evalI σ I
  | .mul a b => a.evalI σ I * b.evalI σ I
  | .app f e => I f (e.evalI σ I)

/-- Python rendering of the list of variable names used in the error
messages of the validators (quotes elided). -/
def namesFormat (names : List String) : String :=
  "[" ++ String.intercalate ", " names ++ "]"

/-- `ProblemBase._require_zero`: the expression must be (literally) the zero
expression. -/
def requireZero (key : String) (e : Expr) : Except Err Unit :=
  if e ≠ Expr.num 0 then
    .error (.unsupportedEquationError (key ++ " must be zero."))
  else
    .ok ()

/-- `ProblemBase._require_independent`: the expression must not depend on any
of the given names. -/
def requireIndependent (key : String) (e : Expr) (vars : List String) :
    Except Err Unit :=
  if e.hasAny vars then
    .error (.unsupportedEquationError
      (key ++ " must be independent of " ++ namesFormat vars ++ "."))
  else
    .ok ()

/-- `ProblemBase._require_first_order`: compute the polynomial order of the
expression in the given names, fail above 1, and return the order. -/
def requireFirstOrder (key : String) (e : Expr) (vars : List String) :
    Except Err Nat :=
  let order := e.orderIn vars
  if order > 1 then
    .error (.unsupportedEquationError
      (key ++ " must be first-order in " ++ namesFormat vars ++ "."))
  else
    .ok order

/-- A domain basis as consumed by `problems.py`: a name, the separable flag,
and the name of its `Differentiate` operator. -/
structure Basis where
  name : String
  separable : Bool
  diffOp : String
  deriving DecidableEq, Repr

/-- The coupled (non-separable) derivative operators of a domain, as
collected by `ProblemBase._check_differential_order`. -/
def coupledDiffs (bases : List Basis) : List String :=
  (bases.filter (fun b => !b.separable)).map (fun b => b.diffOp)

/-- `ProblemBase._check_differential_order`: the LHS must be first-order in
the coupled derivatives; on success the record's differential flag is
`bool(order)`. -/
def checkDifferentialOrder (bases : List Basis) (lhs : Expr) :
    Except Err Bool := do
  let order ← requireFirstOrder "LHS" lhs (coupledDiffs bases)
  pure (decide (order ≠ 0))

/-- Modelled from the spec: one per-axis metadata entry of the external
`Metadata` container (`dedalus.core.metadata`, not reproduced in the
repository slice), with keys scale, constant, and parity. -/
structure MetaEntry where
  scale : Int
  constant : Bool
  parity : Int
  deriving DecidableEq, Repr

/-- Name of a domain axis, as read from `self.domain.bases[axis].name`. -/
def axisNameOf (bases : List Basis) (axis : Nat) : String :=
  ((bases.get? axis).map (fun b => b.name)).getD ""

/-- `ProblemBase._check_meta_scale`: the scale key is disregarded (the solve
occurs in coefficient space). -/
def checkMetaScale (bases : List Basis) (lscale rscale : Int) (axis : Nat) :
    Except Err Unit :=
  let _ := bases
  let _ := lscale
  let _ := rscale
  let _ := axis
  .ok ()

/-- `ProblemBase._check_meta_constant`: the RHS must be constant along the
axis whenever the LHS is. -/
def checkMetaConstant (bases : List Basis) (lconstant rconstant : Bool)
    (axis : Nat) : Except Err Unit :=
  if lconstant then
    if !rconstant then
      .error (.symbolicParsingError
        ("LHS is constant but RHS is nonconstant along "
          ++ axisNameOf bases axis ++ " axis."))
    else
      .ok ()
  else
    .ok ()

/-- `ProblemBase._check_meta_parity`: the LHS parity must match the RHS
parity whenever the RHS parity is nonzero. -/
def checkMetaParity (bases : List Basis) (lparity rparity : Int) (axis : Nat) :
    Except Err Unit :=
  if rparity ≠ 0 then
    if lparity ≠ rparity then
      .error (.symbolicParsingError
        ("LHS and RHS parities along " ++ axisNameOf bases axis
          ++ " axis do not match."))
    else
      .ok ()
  else
    .ok ()

/-- One axis of `ProblemBase._check_meta_consistency`: dispatch the
key-specific checker for every metadata key of the axis, in the key order
scale, constant, parity. -/
def checkMetaAxis (bases : List Basis) (lm rm : MetaEntry) (axis : Nat) :
    Except Err Unit := do
  checkMetaScale bases lm.scale rm.scale axis
  checkMetaConstant bases lm.constant rm.constant axis
  checkMetaParity bases lm.parity rm.parity axis

/-- Per-axis loop of `_check_meta_consistency` over an explicit list of
axes. -/
def checkMetaAxes (bases : List Basis) (lmeta rmeta : Nat → MetaEntry) :
    List Nat → Except Err Unit
  | [] => .ok ()
  | a :: rest => do
      checkMetaAxis bases (lmeta a) (rmeta a) a
      checkMetaAxes bases lmeta rmeta rest

/-- `ProblemBase._check_meta_consistency`: for every axis of the domain and
every metadata key, run the key-specific comparison of LHS and RHS
metadata. -/
def checkMetaConsistency (bases : List Basis) (lmeta rmeta : Nat → MetaEntry) :
    Except Err Unit :=
  checkMetaAxes bases lmeta rmeta (List.range bases.length)

/-- `ProblemBase._check_boundary_form`: along every non-separable axis both
sides of a boundary condition must be constant. -/
def checkBoundaryFormAxes (bases : List Basis)
    (lconst rconst : Nat → Bool) : List Nat → Except Err Unit
  | [] => .ok ()
  | a :: rest =>
      match bases.get? a with
      | none => checkBoundaryFormAxes bases lconst rconst rest
      | some b =>
          if !b.separable then
            if !(lconst a) || !(rconst a) then
              .error (.symbolicParsingError
                ("Boundary condition must be constant along "
                  ++ b.name ++ "."))
            else
              checkBoundaryFormAxes bases lconst rconst rest
          else
            checkBoundaryFormAxes bases lconst rconst rest

/-- `ProblemBase._prep_linear_form`: cast, expand with respect to the
variables, then rewrite into canonical linear form; returns the pair of the
prepared expression and the ordered variable list.  The algebraic rewrites
`expand` and `canonical_linear_form` belong to the external operand family
and are passed in as parameters. -/
def prepLinearForm (expand canon : Expr → List String → Expr) (e : Expr)
    (vars : List String) : Expr × List String :=
  (canon (expand e vars) vars, vars)

/-- The basic part of an equation/BC record, as written by
`ProblemBase._build_basic_dictionary`: the raw equation and condition
strings and the split LHS/RHS substrings. -/
structure BasicRec where
  rawEquation : String
  rawCondition : String
  rawLHS : String
  rawRHS : String
  deriving DecidableEq, Repr

/-- A completed equation/BC record: the basic strings, the parsed object
forms, the differential flag, and the variant-specific reduced forms. -/
structure EqRecord (F : Type) where
  basic : BasicRec
  LHS : Expr
  RHS : Expr
  differential : Bool
  forms : F
  deriving DecidableEq, Repr

/-- The stage functions driven by the `add_equation`/`add_bc` pipeline of
`ProblemBase`.  `splitEquation` stands for `parsing.split_equation` and the
two parsers for `Operand.parse`/`FutureField.parse` (external modules);
`checkConditions` is the variant hook `_check_conditions`;
`checkDiffOrder`, `checkMeta` and `checkBoundary` are the shared checks; and
`setMatrixExpressions` is the variant's matrix-form reduction.  Matching the
source signatures, no stage after `_build_basic_dictionary` receives the
condition string. -/
structure Stages (F : Type) where
  splitEquation : String → Except Err (String × String)
  parseLHS : String → Except Err Expr
  parseRHS : String → Except Err Expr
  checkConditions : Expr → Expr → Except Err Unit
  checkDiffOrder : Expr → Except Err Bool
  checkMeta : Expr → Expr → Except Err Unit
  checkBoundary : Expr → Expr → Except Err Unit
  setMatrixExpressions : Expr → Expr → Except Err F

/-- The record-building pipeline of `ProblemBase.add_equation`: build the
basic dictionary, build the object forms, run `_check_eqn_conditions`
(variant conditions, differential order, metadata consistency), then run the
variant's `_set_matrix_expressions`. -/
def buildEqnRecord {F : Type} (st : Stages F) (equation condition : String) :
    Except Err (EqRecord F) := do
  let lr ← st.splitEquation equation
  let basic : BasicRec :=
    { rawEquation := equation, rawCondition := condition
      rawLHS := lr.1, rawRHS := lr.2 }
  let lhs ← st.parseLHS lr.1
  let rhs ← st.parseRHS lr.2
  st.checkConditions lhs rhs
  let differential ← st.checkDiffOrder lhs
  st.checkMeta lhs rhs
  let forms ← st.setMatrixExpressions lhs rhs
  pure { basic := basic, LHS := lhs, RHS := rhs
         differential := differential, forms := forms }

/-- The record-building pipeline of `ProblemBase.add_bc`: as for equations,
with the additional `_check_boundary_form` stage of
`_check_bc_conditions`. -/
def buildBcRecord {F : Type} (st : Stages F) (equation condition : String) :
    Except Err (EqRecord F) := do
  let lr ← st.splitEquation equation
  let basic : BasicRec :=
    { rawEquation := equation, rawCondition := condition
      rawLHS := lr.1, rawRHS := lr.2 }
  let lhs ← st.parseLHS lr.1
  let rhs ← st.parseRHS lr.2
  st.checkConditions lhs rhs
  let differential ← st.checkDiffOrder lhs
  st.checkMeta lhs rhs
  st.checkBoundary lhs rhs
  let forms ← st.setMatrixExpressions lhs rhs
  pure { basic := basic, LHS := lhs, RHS := rhs
         differential := differential, forms := forms }

/-- The two record lists held by a problem: `self.equations` and
`self.boundary_conditions`. -/
structure ProblemState (F : Type) where
  eqs : List (EqRecord F)
  bcs : List (EqRecord F)
  deriving DecidableEq, Repr

/-- `ProblemBase.add_equation`: run the pipeline on a local record and append
it to the equation list only once every stage has succeeded. -/
def addEquation {F : Type} (st : Stages F) (p : ProblemState F)
    (equation condition : String) : Except Err (ProblemState F) :=
  (buildEqnRecord st equation condition).map
    (fun r => { p with eqs := p.eqs ++ [r] })

/-- `ProblemBase.add_bc`: run the pipeline on a local record and append it to
the boundary-condition list only once every stage has succeeded. -/
def addBc {F : Type} (st : Stages F) (p : ProblemState F)
    (equation condition : String) : Except Err (ProblemState F) :=
  (buildBcRecord st equation condition).map
    (fun r => { p with bcs := p.bcs ++ [r] })

/-- Reduced forms of an initial-value problem record: the pairs `M` and `L`
and the forcing `F`. -/
structure IVPForms where
  M : Expr × List String
  L : Expr × List String
  F : Expr
  deriving DecidableEq, Repr

/-- `InitialValueProblem._check_conditions`: the LHS must be independent of
the time scalar and at most first-order in the time-derivative operator. -/
def ivpCheckConditions (t dt : String) (lhs : Expr) : Except Err Unit := do
  requireIndependent "LHS" lhs [t]
  let _ ← requireFirstOrder "LHS" lhs [dt]
  pure ()

/-- `InitialValueProblem._set_matrix_expressions`: split the LHS by the
time-derivative operator into `(M, L)`, replace the operator by the identity
on the `M` branch, prepare both as linear forms over the problem variables,
and take the RHS unchanged as `F`. -/
def ivpSetMatrixExpressions (expand canon : Expr → List String → Expr)
    (dt : String) (vars : List String) (lhs rhs : Expr) : IVPForms :=
  let ml := lhs.splitBy dt
  let M := ml.1.replaceOpId dt
  { M := prepLinearForm expand canon M vars
    L := prepLinearForm expand canon ml.2 vars
    F := rhs }

/-- Reduced forms of an eigenvalue problem record: the pairs `M` and `L`. -/
structure EVPForms where
  M : Expr × List String
  L : Expr × List String
  deriving DecidableEq, Repr

/-- `EigenvalueProblem._check_conditions`: the LHS must be at most
first-order in the eigenvalue scalar and the RHS must be zero. -/
def evpCheckConditions (ev : String) (lhs rhs : Expr) : Except Err Unit := do
  let _ ← requireFirstOrder "LHS" lhs [ev]
  requireZero "RHS" rhs

/-- `EigenvalueProblem._set_matrix_expressions`: split the LHS by the
eigenvalue scalar into `(M, L)`, replace the eigenvalue by `1` on the `M`
branch, and prepare both as linear forms over the problem variables. -/
def evpSetMatrixExpressions (expand canon : Expr → List String → Expr)
    (ev : String) (vars : List String) (lhs : Expr) : EVPForms :=
  let ml := lhs.splitBy ev
  let M := ml.1.replaceLeaf ev (.num 1)
  { M := prepLinearForm expand canon M vars
    L := prepLinearForm expand canon ml.2 vars }

/-- Reduced forms of a nonlinear boundary-value problem record: the pairs
`L` and `dF` and the retained residual entry `F-L`. -/
structure NLBVPForms where
  L : Expr × List String
  dF : Expr × List String
  FmL : Expr
  deriving DecidableEq, Repr

/-- The perturbation name paired with a variable by
`NonlinearBoundaryValueProblem.namespace`. -/
def pertName (v : String) : String :=
  "δ" ++ v

/-- The fresh scalar introduced by
`NonlinearBoundaryValueProblem._set_matrix_expressions`. -/
def epsilonName : String :=
  "__epsilon__"

/-- `NonlinearBoundaryValueProblem._set_matrix_expressions`: build `L` by
replacing each variable in turn by its perturbation; build `dF` by summing,
for each variable/perturbation pair, the ε-derivative of the RHS with
`var → var + ε·pert` evaluated at `ε = 0`; prepare `L` and `dF` as linear
forms over the perturbations; and retain `F-L = RHS − LHS`. -/
def nlbvpSetMatrixExpressions (expand canon : Expr → List String → Expr)
    (vars : List String) (lhs rhs : Expr) : NLBVPForms :=
  let perts := vars.map pertName
  let pairs := vars.zip perts
  let L := pairs.foldl (fun e vp => e.replaceLeaf vp.1 (.leaf vp.2)) lhs
  let dF := pairs.foldl
    (fun acc vp =>
      let dFi := rhs.replaceLeaf vp.1
        (.add (.leaf vp.1) (.mul (.leaf epsilonName) (.leaf vp.2)))
      let dFi := (dFi.symDiff epsilonName).replaceLeaf epsilonName (.num 0)
      .add acc dFi)
    (.num 0)
  { L := prepLinearForm expand canon L perts
    dF := prepLinearForm expand canon dF perts
    FmL := rhs.sub lhs }

/-- Simultaneous substitution of every variable by its paired perturbation
field, as the spec words describe the `L` branch of the nonlinear
boundary-value reduction. -/
def Expr.substPerts : Expr → List String → Expr
  | .num n, _ => .num n
  | .leaf s, vars => if vars.contains s then .leaf (pertName s) else .leaf s
  | .add a b, vars => .add (a.substPerts vars) (b.substPerts vars)
  | .mul a b, vars => .mul (a.substPerts vars) (b.substPerts vars)
  | .app f e, vars => .app f (e.substPerts vars)

/-- Sum of a list of expressions starting from `0`. -/
def sumExprs (l : List Expr) : Expr :=
  l.foldl Expr.add (.num 0)

/-- Follows the spec words for the nonlinear boundary-value reduction: `L` is
the LHS with every declared variable replaced by its paired perturbation
field; `dF` is the sum, over each variable/perturbation pair, of the
symbolic derivative with respect to a fresh scalar ε of the RHS with
`var → var + ε·pert`, evaluated at `ε = 0`; the residual entry `F-L` is
`RHS − LHS`; `L` and `dF` are canonicalized as linear forms over the ordered
list of perturbation fields. -/
def specNLBVPReduction (expand canon : Expr → List String → Expr)
    (vars : List String) (lhs rhs : Expr) : NLBVPForms :=
  let perts := vars.map pertName
  let L := lhs.substPerts vars
  let dF := sumExprs ((vars.zip perts).map
    (fun vp =>
      ((rhs.replaceLeaf vp.1
          (.add (.leaf vp.1) (.mul (.leaf epsilonName) (.leaf vp.2)))).symDiff
        epsilonName).replaceLeaf epsilonName (.num 0)))
  { L := prepLinearForm expand canon L perts
    dF := prepLinearForm expand canon dF perts
    FmL := rhs.sub lhs }

/-! Helper lemmas about the `Except` monad as used by the embedding. -/

@[simp] lemma bindE_ok {α β : Type} (a : α) (f : α → Except Err β) :
    (Except.ok a >>= f) = f a := rfl

@[simp] lemma bindE_error {α β : Type} (e : Err) (f : α → Except Err β) :
    ((Except.error e : Except Err α) >>= f) = Except.error e := rfl

@[simp] lemma mapE_ok {α β : Type} (f : α → β) (a : α) :
    (Except.ok a : Except Err α).map f = Except.ok (f a) := rfl

@[simp] lemma mapE_error {α β : Type} (f : α → β) (e : Err) :
    (Except.error e : Except Err α).map f = Except.error e := rfl

@[simp] lemma pureE {α : Type} (a : α) :
    (pure a : Except Err α) = Except.ok a := rfl

/-! Helper lemmas about the namespace model. -/

lemma containsKey_ident {α : Type} (ns : Namespace α) (k : String)
    (h : allKeysIdent ns = true) (hc : ns.containsKey k = true) :
    pythonIsIdentifier k = true := by
  simp only [Namespace.containsKey, List.any_eq_true] at hc
  obtain ⟨kv, hmem, hkv⟩ := hc
  simp only [decide_eq_true_eq] at hkv
  simp only [allKeysIdent, List.all_eq_true] at h
  exact hkv ▸ h kv hmem

lemma setBase_ident {α : Type} (entries : List (String × α)) (k : String)
    (v : α) (h : entries.all (fun kv => pythonIsIdentifier kv.1) = true)
    (hk : pythonIsIdentifier k = true) :
    (setBase entries k v).all (fun kv => pythonIsIdentifier kv.1) = true := by
  induction entries with
  | nil => simpa [setBase]
  | cons hd tl ih =>
      simp only [List.all_cons, Bool.and_eq_true] at h
      by_cases hEq : hd.1 = k
      · simp [setBase, hEq, h.1, h.2, hk]
      · simp [setBase, hEq, h.1, ih h.2]

lemma setitem_ident {α : Type} (ns : Namespace α) (k : String) (v : α)
    (h : allKeysIdent ns = true) (ns' : Namespace α)
    (hok : ns.setitem k v = .ok ns') : allKeysIdent ns' = true := by
  by_cases hc : ns.containsKey k = true
  · have hk : pythonIsIdentifier k = true := containsKey_ident ns k h hc
    by_cases hw : ns.allowOverwrites = false
    · simp [Namespace.setitem, hc, hw] at hok
    · simp only [Namespace.setitem, hc, hw, if_true, if_false] at hok
      cases hok
      exact setBase_ident ns.entries k v h hk
  · by_cases hk : pythonIsIdentifier k = false
    · simp [Namespace.setitem, hc, hk] at hok
    · simp only [Namespace.setitem, hc, hk, if_true, if_false] at hok
      cases hok
      exact setBase_ident ns.entries k v h (by simpa using hk)

lemma foldl_setitem_ident {α : Type} (l : List (String × α)) :
    ∀ (acc : Namespace α), allKeysIdent acc = true →
      ∀ c, l.foldlM (fun acc kv => acc.setitem kv.1 kv.2) acc = .ok c →
        allKeysIdent c = true := by
  induction l with
  | nil =>
      intro acc hacc c hc
      simp only [List.foldlM_nil] at hc
      cases hc
      exact hacc
  | cons hd tl ih =>
      intro acc hacc c hc
      simp only [List.foldlM_cons] at hc
      cases hstep : acc.setitem hd.1 hd.2 with
      | error e =>
          rw [hstep] at hc
          exact Except.noConfusion hc
      | ok acc' =>
          rw [hstep] at hc
          have hacc' : allKeysIdent acc' = true :=
            setitem_ident acc hd.1 hd.2 hacc acc' hstep
          exact ih acc' hacc' c hc

lemma copy_ident {α : Type} (ns : Namespace α) (h : allKeysIdent ns = true)
    (c : Namespace α) (hc : ns.copy = .ok c) : allKeysIdent c = true := by
  simp only [Namespace.copy] at hc
  cases hfold : ns.entries.foldlM
      (fun acc kv => acc.setitem kv.1 kv.2) (Namespace.fresh α) with
  | error e =>
      rw [hfold] at hc
      exact Except.noConfusion hc
  | ok c0 =>
      rw [hfold] at hc
      have hc' : Except.ok (ε := Err)
          { c0 with allowOverwrites := ns.allowOverwrites } = Except.ok c := hc
      cases hc'
      have h0 : allKeysIdent (Namespace.fresh α) = true := by
        simp [allKeysIdent, Namespace.fresh]
      exact foldl_setitem_ident ns.entries (Namespace.fresh α) h0 c0 hfold

/-! Claim theorems for the namespace. -/

/-- C2 counterexample: on a fresh Namespace, with its default settings and
overwrite never explicitly enabled, a second insertion under the same name
succeeds (the constructor sets `allow_overwrites = True`), so the claim that
re-assigning an existing key is an error by default is false on the code. -/
theorem claim_C2_counterexample :
    ((Namespace.fresh Nat).setitem "a" 1).bind (fun ns => ns.setitem "a" 2)
      = .ok { entries := [("a", 2)], allowOverwrites := true } := by
  rfl

/-- C2 (amended): re-assigning an existing key fails exactly when
`allow_overwrites` has been disabled; a fresh Namespace has
`allow_overwrites = True`, so by default re-assignment succeeds. -/
theorem claim_C2_amended {α : Type} (ns : Namespace α) (k : String) (v : α)
    (h : ns.containsKey k = true) :
    (isOkE (ns.setitem k v) = true ↔ ns.allowOverwrites = true)
    ∧ (ns.allowOverwrites = false →
        ns.setitem k v = .error (.symbolicParsingError
          ("Name " ++ k ++ " is used multiple times.")))
    ∧ (Namespace.fresh α).allowOverwrites = true := by
  refine ⟨?_, ?_, rfl⟩
  · cases hw : ns.allowOverwrites <;>
      simp [Namespace.setitem, h, hw, isOkE]
  · intro hw
    simp [Namespace.setitem, h, hw]

/-- C2 witness: the amended statement applied to a concrete namespace in
which overwrites have been disabled. -/
theorem claim_C2_witness :
    (Namespace.containsKey { entries := [("a", (1 : Nat))], allowOverwrites := false } "a" = true)
    ∧ (Namespace.setitem { entries := [("a", (1 : Nat))], allowOverwrites := false } "a" 2
        = .error (.symbolicParsingError ("Name " ++ "a" ++ " is used multiple times."))) :=
  ⟨by rfl,
   (claim_C2_amended
      { entries := [("a", (1 : Nat))], allowOverwrites := false } "a" 2
      (by rfl)).2.1 (by rfl)⟩

/-- C3: under the invariant that every present key is a valid identifier,
inserting a non-identifier key fails regardless of the overwrite flag; the
invariant holds of a fresh namespace and is preserved by every successful
insertion and by `copy`. -/
theorem claim_C3_nonidentifier_invariant {α : Type} (ns : Namespace α)
    (k : String) (v : α) :
    (allKeysIdent ns = true → pythonIsIdentifier k = false →
      ns.setitem k v = .error (.symbolicParsingError
        ("Name " ++ k ++ " is not a valid identifier.")))
    ∧ allKeysIdent (Namespace.fresh α) = true
    ∧ (allKeysIdent ns = true →
        ∀ ns', ns.setitem k v = .ok ns' → allKeysIdent ns' = true)
    ∧ (allKeysIdent ns = true →
        ∀ c, ns.copy = .ok c → allKeysIdent c = true) := by
  refine ⟨?_, by simp [allKeysIdent, Namespace.fresh], ?_, ?_⟩
  · intro h hk
    have hc : ns.containsKey k = false := by
      cases hcc : ns.containsKey k with
      | false => rfl
      | true => exact absurd (containsKey_ident ns k h hcc) (by simp [hk])
    simp [Namespace.setitem, hc, hk]
  · intro h ns' hok
    exact setitem_ident ns k v h ns' hok
  · intro h c hc
    exact copy_ident ns h c hc

/-- C3 witness: the main statement applied to a concrete namespace and the
concrete non-identifier key `1bad`. -/
theorem claim_C3_witness :
    allKeysIdent { entries := [("a", (1 : Nat))], allowOverwrites := true } = true
    ∧ pythonIsIdentifier "1bad" = false
    ∧ Namespace.setitem { entries := [("a", (1 : Nat))], allowOverwrites := true } "1bad" 2
        = .error (.symbolicParsingError
            ("Name " ++ "1bad" ++ " is not a valid identifier.")) :=
  ⟨by rfl, by rfl,
   (claim_C3_nonidentifier_invariant
      { entries := [("a", (1 : Nat))], allowOverwrites := true } "1bad" 2).1
     (by rfl) (by rfl)⟩

/-! Helper lemmas about the expression model. -/

lemma orderIn_eq_zero_iff (e : Expr) (vars : List String) :
    e.orderIn vars = 0 ↔ e.hasAny vars = false := by
  induction e with
  | num n => simp [Expr.orderIn, Expr.hasAny]
  | leaf s =>
      by_cases h : vars.contains s = true <;> simp [Expr.orderIn, Expr.hasAny, h]
  | add a b iha ihb =>
      simp [Expr.orderIn, Expr.hasAny, Nat.max_eq_zero_iff, iha, ihb]
  | mul a b iha ihb =>
      simp [Expr.orderIn, Expr.hasAny, Nat.add_eq_zero, iha, ihb]
  | app f e ih =>
      by_cases h : vars.contains f = true <;>
        simp [Expr.orderIn, Expr.hasAny, h, ih, Nat.add_eq_zero]

lemma splitBy_evalI (e : Expr) (v : String) (σ : String → Int)
    (I : String → Int → Int) :
    ((e.splitBy v).1).evalI σ I + ((e.splitBy v).2).evalI σ I
      = e.evalI σ I := by
  induction e with
  | add a b iha ihb =>
      simp only [Expr.splitBy, Expr.evalI]
      omega
  | num n =>
      cases hh : (Expr.num n).hasAny [v] <;> simp [Expr.splitBy, hh, Expr.evalI]
  | leaf s =>
      cases hh : (Expr.leaf s).hasAny [v] <;> simp [Expr.splitBy, hh, Expr.evalI]
  | mul a b iha ihb =>
      cases hh : (Expr.mul a b).hasAny [v] <;> simp [Expr.splitBy, hh, Expr.evalI]
  | app f e ih =>
      cases hh : (Expr.app f e).hasAny [v] <;> simp [Expr.splitBy, hh, Expr.evalI]

lemma splitBy_snd_hasAny (e : Expr) (v : String) :
    ((e.splitBy v).2).hasAny [v] = false := by
  induction e with
  | add a b iha ihb =>
      simp only [Expr.splitBy, Expr.hasAny]
      simp [iha, ihb]
  | num n =>
      simp only [Expr.splitBy]
      split
      · simp [Expr.hasAny]
      · next h => simpa using h
  | leaf s =>
      simp only [Expr.splitBy]
      split
      · simp [Expr.hasAny]
      · next h => simpa using h
  | mul a b iha ihb =>
      simp only [Expr.splitBy]
      split
      · simp [Expr.hasAny]
      · next h => simpa using h
  | app f e ih =>
      simp only [Expr.splitBy]
      split
      · simp [Expr.hasAny]
      · next h => simpa using h

/-! Claim theorems for the shared validators. -/

/-- C7: `_require_first_order` returns 0 when the expression has no
dependence on the variables (order 0 is equivalent to no dependence),
returns 1 when it is exactly linear in them, fails with
`UnsupportedEquationError` naming the variables for order above 1, and on
success returns the computed order. -/
theorem claim_C7_require_first_order (key : String) (e : Expr)
    (vars : List String) :
    (e.hasAny vars = false → requireFirstOrder key e vars = .ok 0)
    ∧ (e.orderIn vars = 1 → requireFirstOrder key e vars = .ok 1)
    ∧ (1 < e.orderIn vars → requireFirstOrder key e vars
        = .error (.unsupportedEquationError
            (key ++ " must be first-order in " ++ namesFormat vars ++ ".")))
    ∧ (e.orderIn vars = 0 ↔ e.hasAny vars = false)
    ∧ (e.orderIn vars ≤ 1 →
        requireFirstOrder key e vars = .ok (e.orderIn vars)) := by
  refine ⟨?_, ?_, ?_, orderIn_eq_zero_iff e vars, ?_⟩
  · intro h
    have h0 : e.orderIn vars = 0 := (orderIn_eq_zero_iff e vars).mpr h
    simp [requireFirstOrder, h0]
  · intro h1
    simp [requireFirstOrder, h1]
  · intro h
    simp [requireFirstOrder, h]
  · intro h
    simp [requireFirstOrder, Nat.not_lt.mpr h]

/-- C7 witness: the main statement applied to the concrete quadratic
expression `u*u` in the variable `u`. -/
theorem claim_C7_witness :
    1 < (Expr.mul (.leaf "u") (.leaf "u")).orderIn ["u"]
    ∧ requireFirstOrder "LHS" (Expr.mul (.leaf "u") (.leaf "u")) ["u"]
        = .error (.unsupportedEquationError
            ("LHS" ++ " must be first-order in " ++ namesFormat ["u"] ++ ".")) :=
  ⟨by decide,
   (claim_C7_require_first_order "LHS" (Expr.mul (.leaf "u") (.leaf "u"))
      ["u"]).2.2.1 (by decide)⟩

/-- C8: coupled-axis derivatives must appear at order at most 1 in the LHS
(order above 1 fails with `UnsupportedEquationError`), and the differential
flag returned on success is true exactly when the LHS contains a coupled
derivative. -/
theorem claim_C8_differential_order (bases : List Basis) (lhs : Expr) :
    (∀ b, checkDifferentialOrder bases lhs = .ok b →
      (b = true ↔ lhs.hasAny (coupledDiffs bases) = true))
    ∧ (lhs.orderIn (coupledDiffs bases) ≤ 1 →
        checkDifferentialOrder bases lhs
          = .ok (decide (lhs.orderIn (coupledDiffs bases) ≠ 0)))
    ∧ (1 < lhs.orderIn (coupledDiffs bases) →
        checkDifferentialOrder bases lhs
          = .error (.unsupportedEquationError
              ("LHS must be first-order in "
                ++ namesFormat (coupledDiffs bases) ++ "."))) := by
  refine ⟨?_, ?_, ?_⟩
  · intro b hok
    by_cases h : 1 < lhs.orderIn (coupledDiffs bases)
    · simp [checkDifferentialOrder, requireFirstOrder, h] at hok
    · simp only [checkDifferentialOrder, requireFirstOrder, if_neg h,
        bindE_ok, pureE, Except.ok.injEq] at hok
      subst hok
      constructor
      · intro hb
        simp only [decide_eq_true_eq] at hb
        cases hh : lhs.hasAny (coupledDiffs bases) with
        | true => rfl
        | false => exact absurd ((orderIn_eq_zero_iff _ _).mpr hh) hb
      · intro hh
        simp only [decide_eq_true_eq]
        intro h0
        rw [(orderIn_eq_zero_iff _ _).mp h0] at hh
        exact Bool.false_ne_true hh
  · intro h
    simp [checkDifferentialOrder, requireFirstOrder, Nat.not_lt.mpr h]
  · intro h
    simp [checkDifferentialOrder, requireFirstOrder, h]

/-- C8 witness: the main statement applied to a domain with one coupled axis
and the LHS `dx(u)`. -/
theorem claim_C8_witness :
    (Expr.app "dx" (.leaf "u")).orderIn
        (coupledDiffs [{ name := "x", separable := false, diffOp := "dx" }]) ≤ 1
    ∧ checkDifferentialOrder [{ name := "x", separable := false, diffOp := "dx" }]
        (Expr.app "dx" (.leaf "u"))
        = .ok (decide ((Expr.app "dx" (.leaf "u")).orderIn
            (coupledDiffs [{ name := "x", separable := false, diffOp := "dx" }]) ≠ 0)) :=
  ⟨by decide,
   (claim_C8_differential_order
      [{ name := "x", separable := false, diffOp := "dx" }]
      (Expr.app "dx" (.leaf "u"))).2.1 (by decide)⟩

/-- C5: an initial-value LHS must be independent of the time scalar and at
most first-order in the time-derivative operator, with violations raising
`UnsupportedEquationError`; the accepted LHS is split by the time-derivative
operator into `(M, L)` with the operator replaced by the identity on the `M`
branch, the split exactly accounting for the original LHS; `F` is the RHS
unchanged. -/
theorem claim_C5_ivp_reduction (expand canon : Expr → List String → Expr)
    (t dt : String) (vars : List String) (lhs rhs : Expr) :
    ((ivpCheckConditions t dt lhs = .ok ()) ↔
      (lhs.hasAny [t] = false ∧ lhs.orderIn [dt] ≤ 1))
    ∧ (lhs.hasAny [t] = true →
        ivpCheckConditions t dt lhs = .error (.unsupportedEquationError
          ("LHS must be independent of " ++ namesFormat [t] ++ ".")))
    ∧ (lhs.hasAny [t] = false → 1 < lhs.orderIn [dt] →
        ivpCheckConditions t dt lhs = .error (.unsupportedEquationError
          ("LHS must be first-order in " ++ namesFormat [dt] ++ ".")))
    ∧ (ivpSetMatrixExpressions expand canon dt vars lhs rhs).M
        = prepLinearForm expand canon ((lhs.splitBy dt).1.replaceOpId dt) vars
    ∧ (ivpSetMatrixExpressions expand canon dt vars lhs rhs).L
        = prepLinearForm expand canon (lhs.splitBy dt).2 vars
    ∧ (ivpSetMatrixExpressions expand canon dt vars lhs rhs).F = rhs
    ∧ (∀ σ I, ((lhs.splitBy dt).1).evalI σ I + ((lhs.splitBy dt).2).evalI σ I
        = lhs.evalI σ I) := by
  refine ⟨?_, ?_, ?_, rfl, rfl, rfl, fun σ I => splitBy_evalI lhs dt σ I⟩
  · constructor
    · intro hok
      by_cases h1 : lhs.hasAny [t] = true
      · simp [ivpCheckConditions, requireIndependent, h1] at hok
      · by_cases h2 : 1 < lhs.orderIn [dt]
        · simp [ivpCheckConditions, requireIndependent, requireFirstOrder,
            h1, h2] at hok
        · exact ⟨by simpa using h1, Nat.not_lt.mp h2⟩
    · rintro ⟨h1, h2⟩
      simp [ivpCheckConditions, requireIndependent, requireFirstOrder,
        h1, Nat.not_lt.mpr h2]
  · intro h1
    simp [ivpCheckConditions, requireIndependent, h1]
  · intro h1 h2
    simp [ivpCheckConditions, requireIndependent, requireFirstOrder, h1, h2]

/-- C5 witness: the main statement applied to the concrete LHS
`dt(u) + dx(dx(u))`, independent of `t` and first-order in `dt`. -/
theorem claim_C5_witness :
    (Expr.add (.app "dt" (.leaf "u")) (.app "dx" (.app "dx" (.leaf "u")))).hasAny ["t"] = false
    ∧ (Expr.add (.app "dt" (.leaf "u")) (.app "dx" (.app "dx" (.leaf "u")))).orderIn ["dt"] ≤ 1
    ∧ ivpCheckConditions "t" "dt"
        (Expr.add (.app "dt" (.leaf "u")) (.app "dx" (.app "dx" (.leaf "u")))) = .ok () :=
  ⟨by decide, by decide,
   (claim_C5_ivp_reduction (fun e _ => e) (fun e _ => e) "t" "dt" ["u"]
      (Expr.add (.app "dt" (.leaf "u")) (.app "dx" (.app "dx" (.leaf "u"))))
      (.num 0)).1.mpr ⟨by decide, by decide⟩⟩

/-- C6: an eigenvalue-problem RHS must be identically the zero expression
(`require_zero` fails with `UnsupportedEquationError` otherwise and succeeds
on zero), the LHS must be at most first-order in the eigenvalue scalar, and
the accepted LHS is split by the eigenvalue into `(M, L)` with the
eigenvalue replaced by `1` on the `M` branch and `L` the
eigenvalue-independent remainder. -/
theorem claim_C6_evp_reduction (expand canon : Expr → List String → Expr)
    (ev : String) (vars : List String) (lhs rhs : Expr) :
    ((requireZero "RHS" rhs = .ok ()) ↔ rhs = Expr.num 0)
    ∧ (rhs ≠ Expr.num 0 → requireZero "RHS" rhs
        = .error (.unsupportedEquationError "RHS must be zero."))
    ∧ ((evpCheckConditions ev lhs rhs = .ok ()) ↔
        (lhs.orderIn [ev] ≤ 1 ∧ rhs = Expr.num 0))
    ∧ (1 < lhs.orderIn [ev] →
        evpCheckConditions ev lhs rhs = .error (.unsupportedEquationError
          ("LHS must be first-order in " ++ namesFormat [ev] ++ ".")))
    ∧ (evpSetMatrixExpressions expand canon ev vars lhs).M
        = prepLinearForm expand canon
            ((lhs.splitBy ev).1.replaceLeaf ev (.num 1)) vars
    ∧ (evpSetMatrixExpressions expand canon ev vars lhs).L
        = prepLinearForm expand canon (lhs.splitBy ev).2 vars
    ∧ ((lhs.splitBy ev).2).hasAny [ev] = false
    ∧ (∀ σ I, ((lhs.splitBy ev).1).evalI σ I + ((lhs.splitBy ev).2).evalI σ I
        = lhs.evalI σ I) := by
  refine ⟨?_, ?_, ?_, ?_, rfl, rfl, splitBy_snd_hasAny lhs ev,
    fun σ I => splitBy_evalI lhs ev σ I⟩
  · by_cases h : rhs = Expr.num 0 <;> simp [requireZero, h]
  · intro h
    simp [requireZero, h]
  · constructor
    · intro hok
      by_cases h2 : 1 < lhs.orderIn [ev]
      · simp [evpCheckConditions, requireFirstOrder, h2] at hok
      · by_cases h0 : rhs = Expr.num 0
        · exact ⟨Nat.not_lt.mp h2, h0⟩
        · simp [evpCheckConditions, requireFirstOrder, requireZero,
            Nat.not_lt.mp h2, h2, h0] at hok
    · rintro ⟨h2, h0⟩
      simp [evpCheckConditions, requireFirstOrder, requireZero,
        Nat.not_lt.mpr h2, h0]
  · intro h2
    simp [evpCheckConditions, requireFirstOrder, h2]

/-- C6 witness: the main statement applied to the concrete LHS
`λ·u + dx(u)` and the zero RHS. -/
theorem claim_C6_witness :
    ((Expr.add (.mul (.leaf "lam") (.leaf "u")) (.app "dx" (.leaf "u"))).orderIn ["lam"] ≤ 1
      ∧ (Expr.num 0 : Expr) = Expr.num 0)
    ∧ evpCheckConditions "lam"
        (Expr.add (.mul (.leaf "lam") (.leaf "u")) (.app "dx" (.leaf "u")))
        (.num 0) = .ok () :=
  ⟨⟨by decide, rfl⟩,
   (claim_C6_evp_reduction (fun e _ => e) (fun e _ => e) "lam" ["u"]
      (Expr.add (.mul (.leaf "lam") (.leaf "u")) (.app "dx" (.leaf "u")))
      (.num 0)).2.2.1.mpr ⟨by decide, rfl⟩⟩

/-! Helper lemmas about the metadata consistency check. -/

lemma checkMetaAxis_ok_iff (bases : List Basis) (lm rm : MetaEntry)
    (axis : Nat) :
    checkMetaAxis bases lm rm axis = .ok () ↔
      ((lm.constant = true → rm.constant = true)
        ∧ (rm.parity ≠ 0 → lm.parity = rm.parity)) := by
  unfold checkMetaAxis checkMetaScale checkMetaConstant checkMetaParity
  by_cases h1 : lm.constant = true <;> by_cases h2 : rm.constant = true <;>
    by_cases h3 : rm.parity = 0 <;> by_cases h4 : lm.parity = rm.parity <;>
      simp [h1, h2, h3, h4]

lemma checkMetaAxes_ok_iff (bases : List Basis) (lmeta rmeta : Nat → MetaEntry)
    (axes : List Nat) :
    checkMetaAxes bases lmeta rmeta axes = .ok () ↔
      ∀ a ∈ axes, checkMetaAxis bases (lmeta a) (rmeta a) a = .ok () := by
  induction axes with
  | nil => simp [checkMetaAxes]
  | cons hd tl ih =>
      simp only [checkMetaAxes]
      cases hstep : checkMetaAxis bases (lmeta hd) (rmeta hd) hd with
      | error e =>
          simp only [hstep, bindE_error]
          constructor
          · intro h
            exact Except.noConfusion h
          · intro h
            exact absurd (h hd (List.mem_cons_self hd tl)) (by simp [hstep])
      | ok u =>
          cases u
          simp [hstep, ih, List.forall_mem_cons]

/-- C9: the per-key metadata rules are exactly: scale is always ignored;
constant fails precisely when the LHS is constant and the RHS is not, with
an error naming the axis basis; parity fails precisely when the RHS parity
is nonzero and differs from the LHS parity, with an error naming the axis
basis; and the whole consistency check succeeds exactly when every axis
passes both rules. -/
theorem claim_C9_meta_consistency (bases : List Basis) (ls rs : Int)
    (lc rc : Bool) (lp rp : Int) (axis : Nat)
    (lmeta rmeta : Nat → MetaEntry) :
    checkMetaScale bases ls rs axis = .ok ()
    ∧ ((checkMetaConstant bases lc rc axis = .ok ()) ↔ ¬(lc = true ∧ rc = false))
    ∧ (lc = true → rc = false →
        checkMetaConstant bases lc rc axis = .error (.symbolicParsingError
          ("LHS is constant but RHS is nonconstant along "
            ++ axisNameOf bases axis ++ " axis.")))
    ∧ ((checkMetaParity bases lp rp axis = .ok ()) ↔ (rp = 0 ∨ lp = rp))
    ∧ (rp ≠ 0 → lp ≠ rp →
        checkMetaParity bases lp rp axis = .error (.symbolicParsingError
          ("LHS and RHS parities along " ++ axisNameOf bases axis
            ++ " axis do not match.")))
    ∧ ((checkMetaConsistency bases lmeta rmeta = .ok ()) ↔
        ∀ a < bases.length,
          ((lmeta a).constant = true → (rmeta a).constant = true)
            ∧ ((rmeta a).parity ≠ 0 → (lmeta a).parity = (rmeta a).parity)) := by
  refine ⟨rfl, ?_, ?_, ?_, ?_, ?_⟩
  · by_cases h1 : lc = true <;> by_cases h2 : rc = true <;>
      simp [checkMetaConstant, h1, h2]
  · intro h1 h2
    simp [checkMetaConstant, h1, h2]
  · by_cases h3 : rp = 0 <;> by_cases h4 : lp = rp <;>
      simp [checkMetaParity, h3, h4]
  · intro h3 h4
    simp [checkMetaParity, h3, h4]
  · rw [checkMetaConsistency, checkMetaAxes_ok_iff]
    constructor
    · intro h a ha
      exact (checkMetaAxis_ok_iff bases (lmeta a) (rmeta a) a).mp
        (h a (List.mem_range.mpr ha))
    · intro h a ha
      exact (checkMetaAxis_ok_iff bases (lmeta a) (rmeta a) a).mpr
        (h a (List.mem_range.mp ha))

/-- C9 witness: the main statement applied to a concrete one-axis domain
with a constant LHS and nonconstant RHS, producing the error that names the
basis. -/
theorem claim_C9_witness :
    ((true : Bool) = true ∧ (false : Bool) = false)
    ∧ checkMetaConstant [{ name := "x", separable := false, diffOp := "dx" }]
        true false 0
      = .error (.symbolicParsingError
          ("LHS is constant but RHS is nonconstant along "
            ++ axisNameOf [{ name := "x", separable := false, diffOp := "dx" }] 0
            ++ " axis.")) :=
  ⟨⟨rfl, rfl⟩,
   (claim_C9_meta_consistency
      [{ name := "x", separable := false, diffOp := "dx" }] 0 0 true false 0 0 0
      (fun _ => { scale := 0, constant := false, parity := 0 })
      (fun _ => { scale := 0, constant := false, parity := 0 })).2.2.1 rfl rfl⟩

/-! Helper lemmas for the nonlinear boundary-value reduction. -/

lemma substPerts_nil (e : Expr) : e.substPerts [] = e := by
  induction e with
  | num n => rfl
  | leaf s => simp [Expr.substPerts]
  | add a b iha ihb => simp [Expr.substPerts, iha, ihb]
  | mul a b iha ihb => simp [Expr.substPerts, iha, ihb]
  | app f e ih => simp [Expr.substPerts, ih]

lemma replaceLeaf_substPerts_step (v : String) (vs : List String)
    (hδ : vs.contains (pertName v) = false) (e : Expr) :
    (e.replaceLeaf v (.leaf (pertName v))).substPerts vs
      = e.substPerts (v :: vs) := by
  induction e with
  | num n => rfl
  | leaf s =>
      by_cases hs : s = v
      · subst hs
        have hδ' : pertName s ∉ vs := by simpa using hδ
        simp [Expr.replaceLeaf, Expr.substPerts, hδ', List.contains_cons]
      · simp [Expr.replaceLeaf, Expr.substPerts, hs, List.contains_cons,
          Ne.symm hs]
  | add a b iha ihb => simp [Expr.replaceLeaf, Expr.substPerts, iha, ihb]
  | mul a b iha ihb => simp [Expr.replaceLeaf, Expr.substPerts, iha, ihb]
  | app f e ih => simp [Expr.replaceLeaf, Expr.substPerts, ih]

lemma foldl_replaceLeaf_substPerts (vars : List String)
    (hfresh : ∀ v ∈ vars, vars.contains (pertName v) = false) (e : Expr) :
    (vars.zip (vars.map pertName)).foldl
        (fun acc vp => acc.replaceLeaf vp.1 (.leaf vp.2)) e
      = e.substPerts vars := by
  induction vars generalizing e with
  | nil => simp [substPerts_nil]
  | cons v vs ih =>
      have hv : (v :: vs).contains (pertName v) = false :=
        hfresh v (List.mem_cons_self v vs)
      have hδ : vs.contains (pertName v) = false := by
        simp only [List.contains_cons, Bool.or_eq_false_iff] at hv
        exact hv.2
      have hfresh' : ∀ u ∈ vs, vs.contains (pertName u) = false := by
        intro u hu
        have := hfresh u (List.mem_cons_of_mem v hu)
        simp only [List.contains_cons, Bool.or_eq_false_iff] at this
        exact this.2
      simp only [List.map_cons, List.zip_cons_cons, List.foldl_cons]
      rw [ih hfresh' (e.replaceLeaf v (.leaf (pertName v)))]
      exact replaceLeaf_substPerts_step v vs hδ e

/-- C4: under fresh perturbation names (no declared variable is itself a
perturbation name of another), the nonlinear boundary-value reduction of the
code equals the reduction described by the spec: `L` is the LHS with every
variable simultaneously replaced by its paired perturbation, `dF` is the sum
over variable/perturbation pairs of the ε-derivative of the RHS with
`var → var + ε·pert` evaluated at `ε = 0`, the residual record entry `F-L`
is `RHS − LHS`, and `L` and `dF` are canonicalized as linear forms over the
ordered perturbation list. -/
theorem claim_C4_nlbvp_frechet (expand canon : Expr → List String → Expr)
    (vars : List String) (lhs rhs : Expr)
    (hfresh : ∀ v ∈ vars, vars.contains (pertName v) = false) :
    nlbvpSetMatrixExpressions expand canon vars lhs rhs
      = specNLBVPReduction expand canon vars lhs rhs := by
  simp only [nlbvpSetMatrixExpressions, specNLBVPReduction, sumExprs,
    List.foldl_map, foldl_replaceLeaf_substPerts vars hfresh lhs]

/-- C4 witness: the reduction coincidence applied to the concrete problem
with variable `u`, LHS `dx(u)` and RHS `u*u`. -/
theorem claim_C4_witness :
    (∀ v ∈ ["u"], List.contains ["u"] (pertName v) = false)
    ∧ nlbvpSetMatrixExpressions (fun e _ => e) (fun e _ => e) ["u"]
        (.app "dx" (.leaf "u")) (.mul (.leaf "u") (.leaf "u"))
      = specNLBVPReduction (fun e _ => e) (fun e _ => e) ["u"]
        (.app "dx" (.leaf "u")) (.mul (.leaf "u") (.leaf "u")) :=
  ⟨by decide,
   claim_C4_nlbvp_frechet (fun e _ => e) (fun e _ => e) ["u"]
     (.app "dx" (.leaf "u")) (.mul (.leaf "u") (.leaf "u")) (by decide)⟩

/-! Helper lemmas for the add_equation/add_bc pipeline. -/

lemma buildEqnRecord_ok {F : Type} (st : Stages F) (equation condition : String)
    (r : EqRecord F) (h : buildEqnRecord st equation condition = .ok r) :
    ∃ lr, st.splitEquation equation = .ok lr
      ∧ r.basic = { rawEquation := equation, rawCondition := condition
                    rawLHS := lr.1, rawRHS := lr.2 }
      ∧ st.parseLHS lr.1 = .ok r.LHS
      ∧ st.parseRHS lr.2 = .ok r.RHS
      ∧ st.checkConditions r.LHS r.RHS = .ok ()
      ∧ st.checkDiffOrder r.LHS = .ok r.differential
      ∧ st.checkMeta r.LHS r.RHS = .ok ()
      ∧ st.setMatrixExpressions r.LHS r.RHS = .ok r.forms := by
  unfold buildEqnRecord at h
  cases h1 : st.splitEquation equation with
  | error e => rw [h1] at h; exact Except.noConfusion h
  | ok lr =>
  rw [h1] at h
  simp only [bindE_ok] at h
  cases h2 : st.parseLHS lr.1 with
  | error e => rw [h2] at h; exact Except.noConfusion h
  | ok lhs =>
  rw [h2] at h
  simp only [bindE_ok] at h
  cases h3 : st.parseRHS lr.2 with
  | error e => rw [h3] at h; exact Except.noConfusion h
  | ok rhs =>
  rw [h3] at h
  simp only [bindE_ok] at h
  cases h4 : st.checkConditions lhs rhs with
  | error e => rw [h4] at h; exact Except.noConfusion h
  | ok u4 =>
  cases u4
  rw [h4] at h
  simp only [bindE_ok] at h
  cases h5 : st.checkDiffOrder lhs with
  | error e => rw [h5] at h; exact Except.noConfusion h
  | ok differential =>
  rw [h5] at h
  simp only [bindE_ok] at h
  cases h6 : st.checkMeta lhs rhs with
  | error e => rw [h6] at h; exact Except.noConfusion h
  | ok u6 =>
  cases u6
  rw [h6] at h
  simp only [bindE_ok] at h
  cases h7 : st.setMatrixExpressions lhs rhs with
  | error e => rw [h7] at h; exact Except.noConfusion h
  | ok forms =>
  rw [h7] at h
  simp only [bindE_ok, pureE, Except.ok.injEq] at h
  subst h
  exact ⟨lr, rfl, rfl, h2, h3, h4, h5, h6, h7⟩

lemma buildBcRecord_ok {F : Type} (st : Stages F) (equation condition : String)
    (r : EqRecord F) (h : buildBcRecord st equation condition = .ok r) :
    ∃ lr, st.splitEquation equation = .ok lr
      ∧ r.basic = { rawEquation := equation, rawCondition := condition
                    rawLHS := lr.1, rawRHS := lr.2 }
      ∧ st.parseLHS lr.1 = .ok r.LHS
      ∧ st.parseRHS lr.2 = .ok r.RHS
      ∧ st.checkConditions r.LHS r.RHS = .ok ()
      ∧ st.checkDiffOrder r.LHS = .ok r.differential
      ∧ st.checkMeta r.LHS r.RHS = .ok ()
      ∧ st.checkBoundary r.LHS r.RHS = .ok ()
      ∧ st.setMatrixExpressions r.LHS r.RHS = .ok r.forms := by
  unfold buildBcRecord at h
  cases h1 : st.splitEquation equation with
  | error e => rw [h1] at h; exact Except.noConfusion h
  | ok lr =>
  rw [h1] at h
  simp only [bindE_ok] at h
  cases h2 : st.parseLHS lr.1 with
  | error e => rw [h2] at h; exact Except.noConfusion h
  | ok lhs =>
  rw [h2] at h
  simp only [bindE_ok] at h
  cases h3 : st.parseRHS lr.2 with
  | error e => rw [h3] at h; exact Except.noConfusion h
  | ok rhs =>
  rw [h3] at h
  simp only [bindE_ok] at h
  cases h4 : st.checkConditions lhs rhs with
  | error e => rw [h4] at h; exact Except.noConfusion h
  | ok u4 =>
  cases u4
  rw [h4] at h
  simp only [bindE_ok] at h
  cases h5 : st.checkDiffOrder lhs with
  | error e => rw [h5] at h; exact Except.noConfusion h
  | ok differential =>
  rw [h5] at h
  simp only [bindE_ok] at h
  cases h6 : st.checkMeta lhs rhs with
  | error e => rw [h6] at h; exact Except.noConfusion h
  | ok u6 =>
  cases u6
  rw [h6] at h
  simp only [bindE_ok] at h
  cases h6b : st.checkBoundary lhs rhs with
  | error e => rw [h6b] at h; exact Except.noConfusion h
  | ok u6b =>
  cases u6b
  rw [h6b] at h
  simp only [bindE_ok] at h
  cases h7 : st.setMatrixExpressions lhs rhs with
  | error e => rw [h7] at h; exact Except.noConfusion h
  | ok forms =>
  rw [h7] at h
  simp only [bindE_ok, pureE, Except.ok.injEq] at h
  subst h
  exact ⟨lr, rfl, rfl, h2, h3, h4, h5, h6, h6b, h7⟩

/-- C1: `add_equation` and `add_bc` are all-or-nothing per call: on success
exactly one record, produced by a fully successful pipeline, is appended to
exactly the corresponding list and the other list is untouched; on failure
the error of the failing stage propagates and no record is produced, so both
lists remain exactly as they were. -/
theorem claim_C1_atomic_append {F : Type} (st : Stages F) (p : ProblemState F)
    (equation condition : String) :
    (∀ p', addEquation st p equation condition = .ok p' →
      ∃ r, buildEqnRecord st equation condition = .ok r
        ∧ p'.eqs = p.eqs ++ [r] ∧ p'.bcs = p.bcs
        ∧ st.checkConditions r.LHS r.RHS = .ok ()
        ∧ st.checkMeta r.LHS r.RHS = .ok ()
        ∧ st.setMatrixExpressions r.LHS r.RHS = .ok r.forms)
    ∧ (∀ e, addEquation st p equation condition = .error e →
        buildEqnRecord st equation condition = .error e)
    ∧ (∀ p', addBc st p equation condition = .ok p' →
      ∃ r, buildBcRecord st equation condition = .ok r
        ∧ p'.bcs = p.bcs ++ [r] ∧ p'.eqs = p.eqs
        ∧ st.checkConditions r.LHS r.RHS = .ok ()
        ∧ st.checkMeta r.LHS r.RHS = .ok ()
        ∧ st.checkBoundary r.LHS r.RHS = .ok ()
        ∧ st.setMatrixExpressions r.LHS r.RHS = .ok r.forms)
    ∧ (∀ e, addBc st p equation condition = .error e →
        buildBcRecord st equation condition = .error e) := by
  refine ⟨?_, ?_, ?_, ?_⟩
  · intro p' hp
    unfold addEquation at hp
    cases hb : buildEqnRecord st equation condition with
    | error e => rw [hb] at hp; exact Except.noConfusion hp
    | ok r =>
        rw [hb] at hp
        simp only [mapE_ok, Except.ok.injEq] at hp
        subst hp
        obtain ⟨lr, _, _, _, _, hc, _, hm, hs⟩ :=
          buildEqnRecord_ok st equation condition r hb
        exact ⟨r, rfl, rfl, rfl, hc, hm, hs⟩
  · intro e hp
    unfold addEquation at hp
    cases hb : buildEqnRecord st equation condition with
    | error e0 =>
        rw [hb] at hp
        simp only [mapE_error, Except.error.injEq] at hp
        exact congrArg Except.error hp
    | ok r => rw [hb] at hp; exact Except.noConfusion hp
  · intro p' hp
    unfold addBc at hp
    cases hb : buildBcRecord st equation condition with
    | error e => rw [hb] at hp; exact Except.noConfusion hp
    | ok r =>
        rw [hb] at hp
        simp only [mapE_ok, Except.ok.injEq] at hp
        subst hp
        obtain ⟨lr, _, _, _, _, hc, _, hm, hbd, hs⟩ :=
          buildBcRecord_ok st equation condition r hb
        exact ⟨r, rfl, rfl, rfl, hc, hm, hbd, hs⟩
  · intro e hp
    unfold addBc at hp
    cases hb : buildBcRecord st equation condition with
    | error e0 =>
        rw [hb] at hp
        simp only [mapE_error, Except.error.injEq] at hp
        exact congrArg Except.error hp
    | ok r => rw [hb] at hp; exact Except.noConfusion hp

/-- A concrete set of always-succeeding pipeline stages, used to witness the
pipeline theorems. -/
def trivialStages : Stages Unit where
  splitEquation := fun s => .ok (s, "0")
  parseLHS := fun _ => .ok (.num 0)
  parseRHS := fun _ => .ok (.num 0)
  checkConditions := fun _ _ => .ok ()
  checkDiffOrder := fun _ => .ok false
  checkMeta := fun _ _ => .ok ()
  checkBoundary := fun _ _ => .ok ()
  setMatrixExpressions := fun _ _ => .ok ()

/-- C1 witness: the atomicity statement applied to the empty problem with
the always-succeeding stages: the call appends one record to the equation
list and the boundary-condition list stays empty. -/
theorem claim_C1_witness :
    addEquation trivialStages { eqs := [], bcs := [] } "u" "True"
      = .ok { eqs := [{ basic := { rawEquation := "u", rawCondition := "True"
                                   rawLHS := "u", rawRHS := "0" }
                        LHS := .num 0, RHS := .num 0
                        differential := false, forms := () }], bcs := [] }
    ∧ ProblemState.bcs
        { eqs := [{ basic := { rawEquation := "u", rawCondition := "True"
                               rawLHS := "u", rawRHS := "0" }
                    LHS := .num 0, RHS := .num 0
                    differential := false, forms := () }], bcs := [] }
        = ([] : List (EqRecord Unit)) :=
  ⟨by rfl, by
    obtain ⟨r, hb, heqs, hbcs, hrest⟩ :=
      (claim_C1_atomic_append trivialStages
        { eqs := [], bcs := [] } "u" "True").1
        { eqs := [{ basic := { rawEquation := "u", rawCondition := "True"
                               rawLHS := "u", rawRHS := "0" }
                    LHS := .num 0, RHS := .num 0
                    differential := false, forms := () }], bcs := [] }
        (by rfl)
    exact hbcs⟩

/-- C10: the condition string is stored verbatim in the record and never
examined by any later stage: the pipeline run with condition `c2` is exactly
the pipeline run with condition `c1` with the stored `raw_condition` field
rewritten, for equations and boundary conditions alike; in particular a call
never fails because of the condition string. -/
theorem claim_C10_condition_verbatim {F : Type} (st : Stages F)
    (equation c1 c2 : String) :
    buildEqnRecord st equation c2
      = (buildEqnRecord st equation c1).map
          (fun r => { r with basic := { r.basic with rawCondition := c2 } })
    ∧ (∀ r, buildEqnRecord st equation c1 = .ok r →
        r.basic.rawCondition = c1)
    ∧ buildBcRecord st equation c2
      = (buildBcRecord st equation c1).map
          (fun r => { r with basic := { r.basic with rawCondition := c2 } })
    ∧ (∀ r, buildBcRecord st equation c1 = .ok r →
        r.basic.rawCondition = c1) := by
  refine ⟨?_, ?_, ?_, ?_⟩
  · unfold buildEqnRecord
    cases h1 : st.splitEquation equation with
    | error e => simp
    | ok lr =>
    simp only [bindE_ok]
    cases h2 : st.parseLHS lr.1 with
    | error e => simp
    | ok lhs =>
    simp only [bindE_ok]
    cases h3 : st.parseRHS lr.2 with
    | error e => simp
    | ok rhs =>
    simp only [bindE_ok]
    cases h4 : st.checkConditions lhs rhs with
    | error e => simp
    | ok u4 =>
    cases u4
    simp only [bindE_ok]
    cases h5 : st.checkDiffOrder lhs with
    | error e => simp
    | ok differential =>
    simp only [bindE_ok]
    cases h6 : st.checkMeta lhs rhs with
    | error e => simp
    | ok u6 =>
    cases u6
    simp only [bindE_ok]
    cases h7 : st.setMatrixExpressions lhs rhs with
    | error e => simp
    | ok forms => simp
  · intro r hr
    obtain ⟨lr, _, hbasic, _⟩ := buildEqnRecord_ok st equation c1 r hr
    rw [hbasic]
  · unfold buildBcRecord
    cases h1 : st.splitEquation equation with
    | error e => simp
    | ok lr =>
    simp only [bindE_ok]
    cases h2 : st.parseLHS lr.1 with
    | error e => simp
    | ok lhs =>
    simp only [bindE_ok]
    cases h3 : st.parseRHS lr.2 with
    | error e => simp
    | ok rhs =>
    simp only [bindE_ok]
    cases h4 : st.checkConditions lhs rhs with
    | error e => simp
    | ok u4 =>
    cases u4
    simp only [bindE_ok]
    cases h5 : st.checkDiffOrder lhs with
    | error e => simp
    | ok differential =>
    simp only [bindE_ok]
    cases h6 : st.checkMeta lhs rhs with
    | error e => simp
    | ok u6 =>
    cases u6
    simp only [bindE_ok]
    cases h6b : st.checkBoundary lhs rhs with
    | error e => simp
    | ok u6b =>
    cases u6b
    simp only [bindE_ok]
    cases h7 : st.setMatrixExpressions lhs rhs with
    | error e => simp
    | ok forms => simp
  · intro r hr
    obtain ⟨lr, _, hbasic, _⟩ := buildBcRecord_ok st equation c1 r hr
    rw [hbasic]

/-- C10 witness: the verbatim-storage statement applied to the
always-succeeding stages with two distinct condition strings. -/
theorem claim_C10_witness :
    buildEqnRecord trivialStages "u" "True"
      = (buildEqnRecord trivialStages "u" "nx != 0").map
          (fun r => { r with basic := { r.basic with rawCondition := "True" } })
    ∧ BasicRec.rawCondition
        { rawEquation := "u", rawCondition := "nx != 0"
          rawLHS := "u", rawRHS := "0" } = "nx != 0" :=
  ⟨(claim_C10_condition_verbatim trivialStages "u" "nx != 0" "True").1,
   (claim_C10_condition_verbatim trivialStages "u" "nx != 0" "True").2.1
     { basic := { rawEquation := "u", rawCondition := "nx != 0"
                  rawLHS := "u", rawRHS := "0" }
       LHS := .num 0, RHS := .num 0, differential := false, forms := () }
     (by rfl)⟩

end Dedalus
